import Mathlib

/-!
Shallow embedding of `gpm.go` (package main of ygxdha/gopm).

Go strings are modelled as `List Char` (valid UTF-8 assumed; Go byte
indices into a string at an ASCII delimiter coincide with the character
cut at that delimiter, so slicing at the first space is `take` of the
character index of that space).
-/

namespace Gpm

abbrev GoStr := List Char

/-- Model of `strings.Index(s, " ")` specialised to a one-character
needle: `none` models Go's `-1`, `some i` the (character) index of the
first occurrence. -/
def strIndex : GoStr → Char → Option Nat
  | [], _ => none
  | c :: cs, t => if c == t then some 0 else (strIndex cs t).map (· + 1)

/-- Body of `Command.Name` in the source: `name := c.UsageLine;
i := strings.Index(name, " "); if i >= 0 { name = name[:i] }`. -/
def deriveName (ul : GoStr) : GoStr :=
  match strIndex ul ' ' with
  | some i => ul.take i
  | none => ul

/-- Handler effects on the lifecycle coordinator.  The bodies of the
registered handlers (`cmdBuild`, `cmdInstall`) live outside this file;
for the claims only their interaction with the coordinator matters: a
handler may raise the exit status and register cleanup actions (cleanup
actions are identified by a `Nat` tag so that executions leave a trace). -/
inductive HAct where
  | raiseStatus (n : Int)
  | regCleanup (f : Nat)
deriving DecidableEq

/-- The `Command` struct of the source.  `Run` is `none` exactly when the
Go field is `nil`; when present it is the handler's effect script (see
`HAct`).  `Flags map[string]bool` is modelled as an association list. -/
structure Command where
  Run : Option (List HAct)
  UsageLine : GoStr
  Short : GoStr
  Long : GoStr
  Flags : List (GoStr × Bool)
deriving DecidableEq

/-- `Name` returns the first word of the usage line (source method
`(c *Command) Name()`). -/
def Command.Name (c : Command) : GoStr :=
  deriveName c.UsageLine

/-- `Runnable` reports whether the command can be run: `c.Run != nil`. -/
def Command.Runnable (c : Command) : Bool :=
  c.Run.isSome

/-- Model of Go `unicode.IsSpace` (the Unicode White_Space property). -/
def goIsSpace (c : Char) : Bool :=
  let n := c.toNat
  (0x9 ≤ n && n ≤ 0xD) || n == 0x20 || n == 0x85 || n == 0xA0 ||
  n == 0x1680 || (0x2000 ≤ n && n ≤ 0x200A) || n == 0x2028 ||
  n == 0x2029 || n == 0x202F || n == 0x205F || n == 0x3000

/-- Model of Go `strings.TrimSpace`. -/
def trimSpace (s : GoStr) : GoStr :=
  ((s.dropWhile goIsSpace).reverse.dropWhile goIsSpace).reverse

/-- Model of Go `unicode.ToTitle` restricted to the ASCII and Latin-1
letter rows of the Unicode case table (`a`-`z` and `à`-`þ` except `÷`
map down by 0x20); outside this range the source consults the full
Unicode table, which the theorems below never exercise, and the model is
the identity there. -/
def goToTitle (c : Char) : Char :=
  let n := c.toNat
  if 0x61 ≤ n && n ≤ 0x7A then Char.ofNat (n - 0x20)
  else if 0xE0 ≤ n && n ≤ 0xFE && n != 0xF7 then Char.ofNat (n - 0x20)
  else c

/-- Source `capitalize`: empty string unchanged; otherwise the first
decoded rune is title-cased and the remaining bytes are appended
unchanged (`string(unicode.ToTitle(r)) + s[n:]`). -/
def capitalize (s : GoStr) : GoStr :=
  match s with
  | [] => s
  | c :: rest => goToTitle c :: rest

/- ### Lifecycle coordinator: exit status and atexit chain -/

/-- The two package-level variables `exitStatus` (an `int`, initially 0)
and `atexitFuncs` (a slice of cleanup actions, modelled by their `Nat`
tags).  The mutex `exitMu` only serialises `setExitStatus`; the embedding
is sequential, so each call is one atomic state update. -/
structure PState where
  exitStatus : Int
  atexitFuncs : List Nat
deriving DecidableEq

/-- Source `setExitStatus`: under the mutex,
`if exitStatus < n { exitStatus = n }`. -/
def setExitStatus (st : PState) (n : Int) : PState :=
  if st.exitStatus < n then { st with exitStatus := n } else st

/-- Source `atexit`: `atexitFuncs = append(atexitFuncs, f)`. -/
def atexit (st : PState) (f : Nat) : PState :=
  { st with atexitFuncs := st.atexitFuncs ++ [f] }

/-- The loop body of `exit`: `for _, f := range atexitFuncs { f() }`.
Executing a cleanup action is modelled as emitting its tag into the
trace, so the result is the trace of executed actions in order. -/
def runCleanups : List Nat → List Nat
  | [] => []
  | f :: fs => f :: runCleanups fs

/-- Source `exit`: run every registered cleanup in order, then
`os.Exit(exitStatus)`.  Returns the cleanup execution trace and the code
passed to `os.Exit`. -/
def exit (st : PState) : List Nat × Int :=
  (runCleanups st.atexitFuncs, st.exitStatus)

/-- One handler effect applied to the coordinator state. -/
def applyAct (st : PState) : HAct → PState
  | .raiseStatus n => setExitStatus st n
  | .regCleanup f => atexit st f

/-- A handler body: its effect script folded over the state. -/
def applyActs (acts : List HAct) (st : PState) : PState :=
  acts.foldl applyAct st

/-- The exit status produced by a sequence of `setExitStatus` calls
starting from the initial state (`exitStatus = 0`, no cleanups). -/
def applyStatuses (l : List Int) : Int :=
  (l.foldl (fun st n => setExitStatus st n) ⟨0, []⟩).exitStatus

/- ### main / usage / help dispatch model -/

/-- One message written by the dispatcher.  `usageListing cmds` is the
rendering of `usageTemplate` (whose text is loaded from an i18n file at
startup, hence abstract) over the full ordered registry; `msg s` is a
concrete `fmt.Fprintf` output or an in-source template rendering. -/
inductive OutMsg where
  | usageListing (cmds : List Command)
  | msg (s : GoStr)
deriving DecidableEq

/-- How the process run ends.  `osExit code` is a direct `os.Exit(code)`
(no cleanup runs); `viaExit` is a pass through the `exit()` function
(cleanups run, code is the aggregated status); `ret` means `main`
returned normally, after which the Go runtime terminates the process
with code 0 and without running `atexitFuncs`. -/
inductive Termination where
  | osExit (code : Int)
  | viaExit
  | ret
deriving DecidableEq

/-- Everything observable about one run of `main` after successful
startup: messages written to stdout and stderr, the indices (into the
registry) of handlers invoked, the trace of cleanup actions executed,
the final process exit code, and the termination mechanism. -/
structure Outcome where
  stdout : List OutMsg
  stderr : List OutMsg
  handlersRun : List Nat
  cleanupsRun : List Nat
  finalCode : Int
  term : Termination
deriving DecidableEq

/-- Source `printUsage(w)`: `tmpl(w, usageTemplate, commands)`. -/
def printUsage (cmds : List Command) : OutMsg :=
  .usageListing cmds

/-- Source `usage()`: `printUsage(os.Stderr); os.Exit(2)`. -/
def usage (cmds : List Command) : Outcome :=
  ⟨[], [printUsage cmds], [], [], 2, .osExit 2⟩

/-- Rendering of the in-source `helpTemplate` over one command, with
`trim` bound to `strings.TrimSpace`: the invocation line appears iff the
command is runnable, followed by the trimmed long description. -/
def renderHelp (c : Command) : GoStr :=
  (if c.Runnable then ("usage: gpm ".data) ++ c.UsageLine ++ ("\n\n".data) else []) ++
    trimSpace c.Long ++ ("\n".data)

/-- The `fmt.Fprintf(os.Stderr, ...)` text on the unknown-subcommand
path, with `%q` expanded around the argument. -/
def unknownSubMsg (name : GoStr) : GoStr :=
  ("gpm: unknown subcommand \"".data) ++ name ++ ("\"\nRun \x27gpm help\x27 for usage.\n".data)

/-- The stderr text printed when `help` gets more than one argument. -/
def tooManyMsg : GoStr :=
  ("usage: gpm help command\n\nToo many arguments given.\n").data

/-- The stderr text on an unknown help topic, with `%#q` expanded as
backquotes around the topic. -/
def unknownTopicMsg (topic : GoStr) : GoStr :=
  ("Unknown help topic \x60".data) ++ topic ++ ("\x60.  Run \x27gpm help\x27.\n".data)

/-- The loop inside `help`: first command whose `Name()` equals the
argument, with no runnability requirement. -/
def findByName : List Command → GoStr → Option Command
  | [], _ => none
  | c :: cs, a => if c.Name == a then some c else findByName cs a

/-- The loop inside `main`: first command (with its index) whose
`Name()` equals the first argument and whose `Run` is non-nil. -/
def findRunnable : List Command → GoStr → Option (Nat × Command)
  | [], _ => none
  | c :: cs, a =>
    if c.Name == a && c.Run.isSome then some (0, c)
    else (findRunnable cs a).map (fun p => (p.1 + 1, p.2))

/-- Source `help(args)`: zero arguments render the listing to stdout and
return (so `main` returns, code 0); two or more arguments print the
too-many message and `os.Exit(2)`; one argument either renders that
command's help to stdout and returns, or prints the unknown-topic
message and `os.Exit(2)`. -/
def help (cmds : List Command) (args : List GoStr) : Outcome :=
  match args with
  | [] => ⟨[printUsage cmds], [], [], [], 0, .ret⟩
  | [a] =>
    match findByName cmds a with
    | some c => ⟨[.msg (renderHelp c)], [], [], [], 0, .ret⟩
    | none => ⟨[], [.msg (unknownTopicMsg a)], [], [], 2, .osExit 2⟩
  | _ :: _ :: _ => ⟨[], [.msg tooManyMsg], [], [], 2, .osExit 2⟩

/-- Source `main` after a successful startup (`getAppPath`, config and
usage loading are external I/O preceding every path the claims mention),
with `args = os.Args[1:]` and `st` the coordinator state already
accumulated.  No arguments: `usage()`.  First argument `help`: delegate
and return.  A matching runnable command: run its handler, then `exit()`.
Otherwise: unknown-subcommand message, `setExitStatus(2)`, `exit()`. -/
def mainDispatch (cmds : List Command) (args : List GoStr) (st : PState) : Outcome :=
  match args with
  | [] => usage cmds
  | a :: rest =>
    if a == ("help".data) then help cmds rest
    else
      match findRunnable cmds a with
      | some (i, c) =>
        let st2 := applyActs (c.Run.getD []) st
        ⟨[], [], [i], (exit st2).1, (exit st2).2, .viaExit⟩
      | none =>
        let st2 := setExitStatus st 2
        ⟨[], [.msg (unknownSubMsg a)], [], (exit st2).1, (exit st2).2, .viaExit⟩

/- ### Process relay model -/

/-- Inputs determining one `executeGoCommand` run: which of the three
fallible steps fail (`StdoutPipe`, `StderrPipe`, `Start`), and the byte
sequences the child writes to its two streams when it does start. -/
structure RelayEnv where
  stdoutPipeFails : Bool
  stderrPipeFails : Bool
  startFails : Bool
  childOut : List Nat
  childErr : List Nat
deriving DecidableEq

/-- Observables of one `executeGoCommand` run: which step errors were
printed (0 = stdout pipe, 1 = stderr pipe, 2 = start, in program order),
whether each copy goroutine was launched, whether `Wait` was called, and
the bytes each copier had relayed when the function returned. -/
structure RelayOutcome where
  reportedErrors : List Nat
  launchedOutCopy : Bool
  launchedErrCopy : Bool
  waited : Bool
  relayedOut : List Nat
  relayedErr : List Nat
deriving DecidableEq

/-- Source `executeGoCommand`.  Every error is only printed
(`fmt.Println(err)`); the function never returns early, so both
`go io.Copy(...)` statements and `cmdExec.Wait()` run on every path.
The two copy goroutines are not joined: `Wait` closes the pipes once the
child exits, so at the moment the function returns each copier has
transferred only a scheduler-dependent prefix of its stream.  `sched`
gives the number of bytes each copier managed to relay by that moment
(any value up to the stream length is a real schedule); a failed start
means the child never produced output.  (A failed pipe step additionally
leaves a nil reader in the corresponding goroutine — a latent crash not
modelled here.) -/
def executeGoCommand (env : RelayEnv) (sched : Nat × Nat) : RelayOutcome :=
  { reportedErrors :=
      (if env.stdoutPipeFails then [0] else []) ++
      (if env.stderrPipeFails then [1] else []) ++
      (if env.startFails then [2] else [])
    launchedOutCopy := true
    launchedErrCopy := true
    waited := true
    relayedOut := if env.startFails then [] else env.childOut.take sched.1
    relayedErr := if env.startFails then [] else env.childErr.take sched.2 }

/-- Whether `pat` occurs at the start of `s` (spec-side helper used only
to state that a message mentions certain words). -/
def strStartsWith : GoStr → GoStr → Bool
  | _, [] => true
  | [], _ :: _ => false
  | a :: as, b :: bs => a == b && strStartsWith as bs

/-- Whether `pat` occurs anywhere inside `s`. -/
def strContainsB (s pat : GoStr) : Bool :=
  match s with
  | [] => strStartsWith [] pat
  | _ :: cs => strStartsWith s pat || strContainsB cs pat

/- ### Helper lemmas about name derivation -/

/-- `deriveName` computes the longest space-free prefix. -/
theorem deriveName_eq_takeWhile (l : GoStr) :
    deriveName l = l.takeWhile (fun c => !(c == ' ')) := by
  induction l with
  | nil => rfl
  | cons c cs ih =>
    by_cases hc : c = ' '
    · subst hc
      simp [deriveName, strIndex, List.takeWhile]
    · have hc' : (c == ' ') = false := by
        simp [hc]
      cases hcs : strIndex cs ' ' with
      | none =>
        have ihn : cs.takeWhile (fun c => !(c == ' ')) = cs := by
          rw [← ih]; simp [deriveName, hcs]
        simp [deriveName, strIndex, hc', hcs, List.takeWhile, ihn]
      | some j =>
        have ihs : cs.takeWhile (fun c => !(c == ' ')) = cs.take j := by
          rw [← ih]; simp [deriveName, hcs]
        simp [deriveName, strIndex, hc', hcs, List.takeWhile, ihs]

theorem takeWhile_idem (p : Char → Bool) (l : GoStr) :
    (l.takeWhile p).takeWhile p = l.takeWhile p := by
  induction l with
  | nil => rfl
  | cons c cs ih =>
    by_cases hp : p c
    · simp [List.takeWhile, hp, ih]
    · simp [List.takeWhile, hp]

/- ### Helper lemmas about the lifecycle coordinator -/

theorem setExitStatus_exitStatus (st : PState) (n : Int) :
    (setExitStatus st n).exitStatus = max st.exitStatus n := by
  by_cases h : st.exitStatus < n
  · simp [setExitStatus, h, max_eq_right (le_of_lt h)]
  · simp [setExitStatus, h, max_eq_left (le_of_not_lt h)]

theorem setExitStatus_atexitFuncs (st : PState) (n : Int) :
    (setExitStatus st n).atexitFuncs = st.atexitFuncs := by
  by_cases h : st.exitStatus < n <;> simp [setExitStatus, h]

theorem foldl_setExitStatus (l : List Int) : ∀ st : PState,
    (l.foldl (fun st n => setExitStatus st n) st).exitStatus =
      l.foldl max st.exitStatus := by
  induction l with
  | nil => intro st; rfl
  | cons n ns ih =>
    intro st
    rw [List.foldl_cons, List.foldl_cons, ih, setExitStatus_exitStatus]

theorem le_foldl_max (l : List Int) : ∀ a : Int, a ≤ l.foldl max a := by
  induction l with
  | nil => intro a; exact le_refl a
  | cons b bs ih =>
    intro a
    rw [List.foldl_cons]
    exact le_trans (le_max_left a b) (ih (max a b))

theorem runCleanups_id (l : List Nat) : runCleanups l = l := by
  induction l with
  | nil => rfl
  | cons f fs ih => rw [runCleanups, ih]

theorem foldl_atexit (fs : List Nat) : ∀ st : PState,
    (fs.foldl atexit st).atexitFuncs = st.atexitFuncs ++ fs := by
  induction fs with
  | nil => intro st; simp
  | cons f fs ih =>
    intro st
    rw [List.foldl_cons, ih]
    simp [atexit]

theorem findRunnable_eq_none : ∀ (cmds : List Command) (nm : GoStr),
    (∀ c' ∈ cmds, c'.Name = nm → c'.Run = none) → findRunnable cmds nm = none := by
  intro cmds nm
  induction cmds with
  | nil => intro _; rfl
  | cons c cs ih =>
    intro h
    have hc : (c.Name == nm && c.Run.isSome) = false := by
      by_cases hn : c.Name = nm
      · have hr := h c (List.mem_cons_self c cs) hn
        simp [hr]
      · simp [hn]
    have h' : ∀ c' ∈ cs, c'.Name = nm → c'.Run = none :=
      fun c' hmem hn => h c' (List.mem_cons_of_mem c hmem) hn
    simp [findRunnable, hc, ih h']

/- ### Claim theorems -/

/-- C6: name derivation is a pure, idempotent function of the usage
line: the name of a command with usage line `build [flags] <pkg>` is
`build`, the name of one with usage line `foo` is `foo`, and deriving
twice yields the same string as deriving once. -/
theorem name_derivation_spec :
    Command.Name ⟨none, ("build [flags] <pkg>".data), [], [], []⟩ = ("build".data) ∧
    Command.Name ⟨none, ("foo".data), [], [], []⟩ = ("foo".data) ∧
    ∀ ul : GoStr, deriveName (deriveName ul) = deriveName ul := by
  refine ⟨by decide, by decide, fun ul => ?_⟩
  simp only [deriveName_eq_takeWhile, takeWhile_idem]

/-- C8: `capitalize` maps the empty string to itself, maps `go` to `Go`,
and on any non-empty string replaces the first character by its
title-cased form while leaving the remaining characters unchanged, also
when the first character is multi-byte in UTF-8. -/
theorem capitalize_spec :
    capitalize [] = [] ∧
    capitalize ("go".data) = ("Go".data) ∧
    (∀ (c : Char) (cs : GoStr), capitalize (c :: cs) = goToTitle c :: cs) ∧
    capitalize ('é' :: ("tude".data)) = 'É' :: ("tude".data) :=
  ⟨rfl, by decide, fun _ _ => rfl, by decide⟩

/-- C10: a command whose usage line begins with a space has the empty
string as its derived name, and therefore cannot be matched by any
non-empty first CLI argument. -/
theorem name_empty_of_leading_space (c : Command)
    (h : c.UsageLine.head? = some ' ') :
    c.Name = [] ∧ ∀ a : GoStr, a ≠ [] → c.Name ≠ a := by
  obtain ⟨run, ul, sh, lg, fl⟩ := c
  cases ul with
  | nil => simp at h
  | cons u us =>
    simp only [List.head?] at h
    have hu : u = ' ' := by injection h
    subst hu
    have hname : Command.Name ⟨run, ' ' :: us, sh, lg, fl⟩ = [] := by
      simp [Command.Name, deriveName, strIndex]
    exact ⟨hname, fun a ha hc => ha (hc ▸ rfl)⟩

/-- Closed instance of `name_empty_of_leading_space` at a concrete
command with usage line `" doc"` and the concrete argument `"x"`. -/
theorem name_empty_of_leading_space_witness :
    Command.Name ⟨none, (" doc".data), [], [], []⟩ = [] ∧
    Command.Name ⟨none, (" doc".data), [], [], []⟩ ≠ ("x".data) :=
  ⟨(name_empty_of_leading_space ⟨none, (" doc".data), [], [], []⟩ (by decide)).1,
   (name_empty_of_leading_space ⟨none, (" doc".data), [], [], []⟩ (by decide)).2
     ("x".data) (by decide)⟩

/-- C2 counterexample: after the single call `setExitStatus(-1)` the
exit status is 0, not the maximum value passed across the sequence
(which is -1), so the final status does not always equal the maximum
value passed. -/
theorem raiseStatus_neg_counterexample :
    applyStatuses [-1] = 0 ∧ applyStatuses [-1] ≠ -1 := by decide

/-- C2 amended: the status starts at 0 and each `setExitStatus n` call
sets it to `max(current, n)`; hence for every call sequence the final
status is the maximum of 0 and all values passed (equal to the maximum
passed whenever some non-negative value occurs, but 0 — not the maximum
passed — for an all-negative sequence), and the status is never lowered:
every prefix of a sequence yields a status no greater than the whole
sequence does. -/
theorem setExitStatus_max_spec :
    (∀ (st : PState) (n : Int),
        (setExitStatus st n).exitStatus = max st.exitStatus n) ∧
    (∀ l : List Int, applyStatuses l = l.foldl max 0) ∧
    (∀ pre suf : List Int, applyStatuses pre ≤ applyStatuses (pre ++ suf)) := by
  have hfold : ∀ l : List Int, applyStatuses l = l.foldl max 0 := by
    intro l
    rw [applyStatuses, foldl_setExitStatus]
  refine ⟨setExitStatus_exitStatus, hfold, fun pre suf => ?_⟩
  rw [hfold, hfold, List.foldl_append]
  exact le_foldl_max suf (pre.foldl max 0)

/-- C5: registering the cleanup actions `fs` in order via `atexit`
starting from the initial state and then running `exit` executes exactly
the trace `fs` — each action exactly once, in registration order —
before the process terminates; generally, folding `atexit` appends to the
chain in order. -/
theorem atexit_exit_order :
    (∀ fs : List Nat, (exit (fs.foldl atexit ⟨0, []⟩)).1 = fs) ∧
    (∀ (st : PState) (fs : List Nat),
        (fs.foldl atexit st).atexitFuncs = st.atexitFuncs ++ fs) := by
  constructor
  · intro fs
    show runCleanups (fs.foldl atexit ⟨0, []⟩).atexitFuncs = fs
    rw [runCleanups_id, foldl_atexit]
    rfl
  · intro st fs
    exact foldl_atexit fs st

/-- C7: `help` with zero further arguments renders the full ordered
command listing to standard output, invokes no handler, and the process
ends with code 0; `help` with two or more further arguments writes the
too-many-arguments message (which mentions `Too many arguments`) to
standard error and exits with code 2, invoking no handler. -/
theorem help_paths_spec :
    (∀ (cmds : List Command) (st : PState),
        mainDispatch cmds [("help".data)] st =
          ⟨[printUsage cmds], [], [], [], 0, .ret⟩) ∧
    (∀ (cmds : List Command) (st : PState) (a b : GoStr) (rest : List GoStr),
        mainDispatch cmds (("help".data) :: a :: b :: rest) st =
          ⟨[], [.msg tooManyMsg], [], [], 2, .osExit 2⟩) ∧
    strContainsB tooManyMsg ("Too many arguments".data) = true := by
  refine ⟨fun cmds st => rfl, fun cmds st a b rest => rfl, by decide⟩

/-- C9: when every registered command carrying the name `nm` has a nil
handler, and `nm` is not the built-in `help`, dispatching on `nm`
invokes no handler and takes the unknown-subcommand path (message on
standard error, status raised to 2, pass through `exit`), while
`help nm` still finds the first such command and renders its help to
standard output, the process ending with code 0. -/
theorem doc_command_dispatch (cmds : List Command) (c : Command) (nm : GoStr)
    (st : PState)
    (h1 : findByName cmds nm = some c)
    (h2 : ∀ c' ∈ cmds, c'.Name = nm → c'.Run = none)
    (h3 : nm ≠ ("help".data)) :
    (mainDispatch cmds [nm] st).handlersRun = [] ∧
    (mainDispatch cmds [nm] st).stderr = [.msg (unknownSubMsg nm)] ∧
    (mainDispatch cmds [nm] st).term = .viaExit ∧
    (mainDispatch cmds [nm] st).finalCode = max st.exitStatus 2 ∧
    mainDispatch cmds [("help".data), nm] st =
      ⟨[.msg (renderHelp c)], [], [], [], 0, .ret⟩ := by
  have hbeq : (nm == ("help".data)) = false := beq_eq_false_iff_ne.mpr h3
  have hrun := findRunnable_eq_none cmds nm h2
  refine ⟨?_, ?_, ?_, ?_, ?_⟩ <;>
    simp [mainDispatch, help, hbeq, hrun, h1, exit, setExitStatus_exitStatus]

/-- Closed instance of `doc_command_dispatch`: a registry holding one
documentation-only command named `doc`. -/
theorem doc_command_dispatch_witness :
    (mainDispatch [⟨none, ("doc".data), [], [], []⟩] [("doc".data)] ⟨0, []⟩).handlersRun = [] ∧
    (mainDispatch [⟨none, ("doc".data), [], [], []⟩] [("doc".data)] ⟨0, []⟩).term = .viaExit ∧
    mainDispatch [⟨none, ("doc".data), [], [], []⟩] [("help".data), ("doc".data)] ⟨0, []⟩ =
      ⟨[.msg (renderHelp ⟨none, ("doc".data), [], [], []⟩)], [], [], [], 0, .ret⟩ := by
  have h := doc_command_dispatch [⟨none, ("doc".data), [], [], []⟩]
      ⟨none, ("doc".data), [], [], []⟩ ("doc".data) ⟨0, []⟩
      (by decide) (by decide) (by decide)
  exact ⟨h.1, h.2.2.1, h.2.2.2.2⟩

/-- C1 counterexample: with a cleanup action (tag 7) registered, running
the dispatcher with no arguments (the usage-error path) terminates the
process by a direct `os.Exit(2)` inside `usage`, not through the `exit`
shutdown point, and the registered cleanup is never executed. -/
theorem usage_path_skips_exit :
    (mainDispatch [] [] ⟨0, [7]⟩).term = .osExit 2 ∧
    (mainDispatch [] [] ⟨0, [7]⟩).term ≠ .viaExit ∧
    (mainDispatch [] [] ⟨0, [7]⟩).cleanupsRun = [] := by decide

/-- C1 amended: only the two post-dispatch paths reach the `exit`
shutdown point — after a matching runnable handler ran, and after the
unknown-subcommand report — and there they run every registered cleanup
and exit with the aggregated status.  The no-argument usage error
terminates by a direct `os.Exit(2)` with no cleanup run, and every
`help` path likewise ends without passing through `exit` and runs no
cleanup. -/
theorem shutdown_paths :
    (∀ (cmds : List Command) (st : PState),
        (mainDispatch cmds [] st).term = .osExit 2 ∧
        (mainDispatch cmds [] st).cleanupsRun = []) ∧
    (∀ (cmds : List Command) (st : PState) (rest : List GoStr),
        (mainDispatch cmds (("help".data) :: rest) st).term ≠ .viaExit ∧
        (mainDispatch cmds (("help".data) :: rest) st).cleanupsRun = []) ∧
    (∀ (cmds : List Command) (st : PState) (a : GoStr) (rest : List GoStr)
        (i : Nat) (c : Command),
        a ≠ ("help".data) →
        findRunnable cmds a = some (i, c) →
        (mainDispatch cmds (a :: rest) st).term = .viaExit ∧
        (mainDispatch cmds (a :: rest) st).cleanupsRun =
          (applyActs (c.Run.getD []) st).atexitFuncs ∧
        (mainDispatch cmds (a :: rest) st).finalCode =
          (applyActs (c.Run.getD []) st).exitStatus) ∧
    (∀ (cmds : List Command) (st : PState) (a : GoStr) (rest : List GoStr),
        a ≠ ("help".data) →
        findRunnable cmds a = none →
        (mainDispatch cmds (a :: rest) st).term = .viaExit ∧
        (mainDispatch cmds (a :: rest) st).cleanupsRun = st.atexitFuncs ∧
        (mainDispatch cmds (a :: rest) st).finalCode = max st.exitStatus 2) := by
  refine ⟨fun cmds st => ⟨rfl, rfl⟩, ?_, ?_, ?_⟩
  · intro cmds st rest
    cases rest with
    | nil => exact ⟨by simp [mainDispatch, help], rfl⟩
    | cons a rest' =>
      cases rest' with
      | nil =>
        cases hf : findByName cmds a with
        | some c => exact ⟨by simp [mainDispatch, help, hf], by simp [mainDispatch, help, hf]⟩
        | none => exact ⟨by simp [mainDispatch, help, hf], by simp [mainDispatch, help, hf]⟩
      | cons b rest'' => exact ⟨by simp [mainDispatch, help], rfl⟩
  · intro cmds st a rest i c h3 hfr
    have hbeq : (a == ("help".data)) = false := beq_eq_false_iff_ne.mpr h3
    refine ⟨?_, ?_, ?_⟩ <;> simp [mainDispatch, hbeq, hfr, exit, runCleanups_id]
  · intro cmds st a rest h3 hfr
    have hbeq : (a == ("help".data)) = false := beq_eq_false_iff_ne.mpr h3
    refine ⟨?_, ?_, ?_⟩ <;>
      simp [mainDispatch, hbeq, hfr, exit, runCleanups_id,
        setExitStatus_atexitFuncs, setExitStatus_exitStatus]

/-- Closed instances of `shutdown_paths`: the no-argument path, a bare
`help`, a runnable command `run` whose handler registers cleanup 5, and
the unknown command `zzz` against the empty registry. -/
theorem shutdown_paths_witness :
    (mainDispatch [] [] ⟨0, []⟩).term = .osExit 2 ∧
    (mainDispatch [] [("help".data)] ⟨0, []⟩).cleanupsRun = [] ∧
    (mainDispatch [⟨some [HAct.regCleanup 5], ("run".data), [], [], []⟩]
        [("run".data)] ⟨0, []⟩).term = .viaExit ∧
    (mainDispatch [] [("zzz".data)] ⟨0, []⟩).finalCode = max 0 2 :=
  ⟨(shutdown_paths.1 [] ⟨0, []⟩).1,
   (shutdown_paths.2.1 [] ⟨0, []⟩ []).2,
   (shutdown_paths.2.2.1 [⟨some [HAct.regCleanup 5], ("run".data), [], [], []⟩]
      ⟨0, []⟩ ("run".data) [] 0 ⟨some [HAct.regCleanup 5], ("run".data), [], [], []⟩
      (by decide) (by decide)).1,
   (shutdown_paths.2.2.2 [] ⟨0, []⟩ ("zzz".data) [] (by decide) rfl).2.2⟩

/-- C3: on the bug-witnessing input — a successfully spawned child that
writes bytes 1,2,3 to standard output and exits immediately — there is
a real schedule (the copy goroutines are never joined, so any prefix can
be pending when `Wait` returns and closes the pipes) under which
`executeGoCommand` returns having relayed none of the child's standard
output: the relay does not ensure both streams are drained before
returning. -/
theorem executeGoCommand_truncates :
    (executeGoCommand ⟨false, false, false, [1, 2, 3], [9]⟩ (0, 1)).waited = true ∧
    (executeGoCommand ⟨false, false, false, [1, 2, 3], [9]⟩ (0, 1)).relayedOut = [] ∧
    (executeGoCommand ⟨false, false, false, [1, 2, 3], [9]⟩ (0, 1)).relayedOut ≠ [1, 2, 3] := by
  decide

/-- C4 counterexample: when `Start` fails, `executeGoCommand` prints the
error (report index 2) but still launches both relay goroutines and
still calls `Wait` on the child, contradicting the claim that the relay
does not attempt to wait or relay after a spawn failure. -/
theorem spawn_failure_still_waits :
    (executeGoCommand ⟨false, false, true, [], []⟩ (0, 0)).reportedErrors = [2] ∧
    (executeGoCommand ⟨false, false, true, [], []⟩ (0, 0)).waited = true ∧
    (executeGoCommand ⟨false, false, true, [], []⟩ (0, 0)).launchedOutCopy = true ∧
    (executeGoCommand ⟨false, false, true, [], []⟩ (0, 0)).launchedErrCopy = true := by
  decide

/-- C4 amended: each failing step (stdout pipe, stderr pipe, start) is
reported immediately — its error index appears in the report exactly
when that step fails — but the relay never returns early: on every
input it still launches both relay tasks and waits on the child. -/
theorem relay_failure_reporting (env : RelayEnv) (sched : Nat × Nat) :
    ((0 ∈ (executeGoCommand env sched).reportedErrors) ↔ env.stdoutPipeFails = true) ∧
    ((1 ∈ (executeGoCommand env sched).reportedErrors) ↔ env.stderrPipeFails = true) ∧
    ((2 ∈ (executeGoCommand env sched).reportedErrors) ↔ env.startFails = true) ∧
    (executeGoCommand env sched).launchedOutCopy = true ∧
    (executeGoCommand env sched).launchedErrCopy = true ∧
    (executeGoCommand env sched).waited = true := by
  obtain ⟨so, se, sf, co, ce⟩ := env
  cases so <;> cases se <;> cases sf <;> simp [executeGoCommand]

end Gpm
